import Mathlib

/-!
Shallow embedding of the release-versioning CLI (`release.ts` and its earlier
near-duplicate variant, called `part000` below).  JavaScript strings are
modelled as `List Char` (one entry per code point, matching the `u`-flag
regexes of the source), JavaScript numbers appearing here are integers
(`Int`) or the special values `NaN` / `undefined`, and the git remote is an
explicit state record.  Every definition is translated from the source
scripts; the few JS library primitives used by the source
(`String.prototype.trim`, `Number`, `split`, `localeCompare` with
`numeric: true`, `Array.prototype.sort`) are embedded by their documented
semantics on the fragment the scripts exercise.
-/

/-- JavaScript string, one list entry per code point. -/
abbrev JSStr := List Char

/-- ASCII decimal digit test, as used by the `\d` regex class. -/
def isDigitChar (c : Char) : Bool := 48 ≤ c.toNat && c.toNat ≤ 57

/-- Whitespace as stripped by `String.prototype.trim` (space, tab, LF, VT, FF, CR). -/
def jsWhitespaceChar (c : Char) : Bool :=
  c.toNat == 32 || c.toNat == 9 || c.toNat == 10 || c.toNat == 11 || c.toNat == 12 || c.toNat == 13

/-- Numeric value of a (nonempty, all-digit) character list, most significant first. -/
def parseDigits (l : JSStr) : Nat := l.foldl (fun a c => a * 10 + (c.toNat - 48)) 0

/-- The decimal digit character for `n < 10`. -/
def digitChar : Nat → Char
  | 0 => '0' | 1 => '1' | 2 => '2' | 3 => '3' | 4 => '4'
  | 5 => '5' | 6 => '6' | 7 => '7' | 8 => '8' | _ => '9'

/-- Decimal digits of `n` (fuel-indexed so that it is structurally recursive). -/
def natToDigitsAux : Nat → Nat → List Char
  | 0, _ => []
  | f + 1, n => if n < 10 then [digitChar n] else natToDigitsAux f (n / 10) ++ [digitChar (n % 10)]

/-- Decimal representation of a natural number, as produced by JS number-to-string. -/
def natToDigits (n : Nat) : List Char := natToDigitsAux (n + 1) n

/-- Decimal representation of an integer, as produced by JS number-to-string. -/
def intToChars (i : Int) : List Char :=
  if i < 0 then '-' :: natToDigits i.natAbs else natToDigits i.toNat

/-- `String.prototype.split` with a single-character separator. -/
def splitOnChar (sep : Char) : JSStr → List JSStr
  | [] => [[]]
  | c :: cs =>
    if c = sep then [] :: splitOnChar sep cs
    else
      match splitOnChar sep cs with
      | [] => [[c]]
      | g :: gs => (c :: g) :: gs

/-- `String.prototype.trim`: drop whitespace from both ends. -/
def jsTrim (l : JSStr) : JSStr :=
  ((l.dropWhile jsWhitespaceChar).reverse.dropWhile jsWhitespaceChar).reverse

/-- A JavaScript number-or-absent value as it arises in the scripts: an integer,
`NaN`, or `undefined` (from destructuring a too-short array). -/
inductive JSVal where
  | num (i : Int)
  | nan
  | undefined
deriving DecidableEq

/-- JS `Number(s)` on the fragment exercised by the scripts: surrounding
whitespace ignored, empty string is `0`, optionally signed digit strings are
their value, anything else is `NaN` (floats, exponents and hex do not occur
in version files or tags). -/
def jsNumber (s : JSStr) : JSVal :=
  let t := jsTrim s
  if t = [] then .num 0
  else if t.head? = some '-' then
    if t.drop 1 ≠ [] ∧ (t.drop 1).all isDigitChar then .num (-(parseDigits (t.drop 1) : Int))
    else .nan
  else if t.all isDigitChar then .num (parseDigits t) else .nan

/-- String interpolation of one of these values (template literal `${v}`). -/
def jsvalToChars : JSVal → JSStr
  | .num i => intToChars i
  | .nan => "NaN".data
  | .undefined => "undefined".data

/-- The `Version` record of both scripts. -/
structure VersionJS where
  X : JSVal
  Y : JSVal
  Z : JSVal
  R : JSVal
deriving DecidableEq

/-- Error type offered by the spec for the version store; the translated reader
below never actually produces it. -/
inductive ReadError where
  | corruptVersionFile
deriving DecidableEq

instance {ε α : Type} [DecidableEq ε] [DecidableEq α] : DecidableEq (Except ε α) := fun x y =>
  match x, y with
  | .ok a, .ok b =>
    if h : a = b then .isTrue (by rw [h]) else .isFalse (by simp [h])
  | .error a, .error b =>
    if h : a = b then .isTrue (by rw [h]) else .isFalse (by simp [h])
  | .ok _, .error _ => .isFalse (fun h => Except.noConfusion h)
  | .error _, .ok _ => .isFalse (fun h => Except.noConfusion h)

/-- Element `i` of a destructured array: `undefined` past the end. -/
def jsValAt (parts : List JSVal) (i : Nat) : JSVal := (parts[i]?).getD .undefined

/-- `readCurrentVersionFromFile` (identical to `readCurrentVersion` in the
`part000` variant): trim the file content, split on `.`, convert each segment
with `Number`, and destructure the first four elements.  There is no
validation and no throw: short contents leave components `undefined`,
non-numeric segments become `NaN`, extra segments are dropped. -/
def readCurrentVersionFromFile (content : JSStr) : Except ReadError VersionJS :=
  let parts := (splitOnChar '.' (jsTrim content)).map jsNumber
  .ok { X := jsValAt parts 0, Y := jsValAt parts 1, Z := jsValAt parts 2, R := jsValAt parts 3 }

/-- The template literal `X.Y.Z.R` used both by the writer and by
`currentVersionStr`. -/
def versionString (v : VersionJS) : JSStr :=
  jsvalToChars v.X ++ '.' :: (jsvalToChars v.Y ++ '.' :: (jsvalToChars v.Z ++ '.' :: jsvalToChars v.R))

/-- `writeVersionIntoFile` (= `writeVersion` in `part000`): the file content
written for a version value. -/
def writeVersionIntoFile (v : VersionJS) : JSStr := versionString v

/-- Token stream of a string for numeric collation: maximal digit runs are one
token, every other code point is its own token. -/
inductive NumTok where
  | num (ds : JSStr)
  | chr (c : Char)
deriving DecidableEq

/-- Tokenization used by `localeCompare(..., numeric: true)`: digit
substrings are grouped so they can be compared by numeric value. -/
def tokenize : JSStr → List NumTok
  | [] => []
  | c :: cs =>
    if isDigitChar c then
      match tokenize cs with
      | .num ds :: ts => .num (c :: ds) :: ts
      | ts => .num [c] :: ts
    else .chr c :: tokenize cs

/-- Collation key of a token.  A digit run counts as its numeric value sitting
at the position of the digit block (code points 48–57); any other code point
compares by its own value.  The second component orders equal-position
tokens. -/
def tokKey : NumTok → Nat × Nat
  | .num ds => (48, parseDigits ds)
  | .chr c => (c.toNat, 0)

/-- Lexicographic comparison of key pairs. -/
def prodCompare (a b : Nat × Nat) : Ordering :=
  match compare a.1 b.1 with
  | .eq => compare a.2 b.2
  | o => o

/-- Lexicographic comparison of token streams. -/
def lexTokCompare : List NumTok → List NumTok → Ordering
  | [], [] => .eq
  | [], _ :: _ => .lt
  | _ :: _, [] => .gt
  | t :: ts, u :: us =>
    match prodCompare (tokKey t) (tokKey u) with
    | .eq => lexTokCompare ts us
    | o => o

/-- `a.localeCompare(b, undefined, numeric: true)` as used by the tag
sort comparator: digit runs compare as numbers, everything else by code
point. -/
def localeCompareNumeric (a b : JSStr) : Ordering := lexTokCompare (tokenize a) (tokenize b)

/-- The sort comparator `(a, b) => b.localeCompare(a, undefined, ...)` orders
`a` before `b` exactly when the comparator value is non-positive. -/
def jsDescLe (a b : JSStr) : Bool :=
  match localeCompareNumeric b a with
  | .gt => false
  | _ => true

/-- The comparator as a decidable relation, for the sort. -/
def jsDescRel (a b : JSStr) : Prop := jsDescLe a b = true

instance : DecidableRel jsDescRel := fun _ _ => decEq _ _

/-- `Array.prototype.sort(cmp)`: a stable comparison sort, embedded as
insertion sort (stable, and sorted with respect to the comparator). -/
def jsSortDesc (l : List JSStr) : List JSStr := List.insertionSort jsDescRel l

/-- The regex `^\d+\.\d+\.\d+\.\d+$`: exactly four dot-separated nonempty
all-digit segments. -/
def matchesTagPattern (t : JSStr) : Bool :=
  let parts := splitOnChar '.' t
  parts.length == 4 && parts.all (fun p => !p.isEmpty && p.all isDigitChar)

/-- Numeric (X, Y, Z, R) quadruple of a version tag, used to state the ordering
properties; junk for strings that do not match the tag pattern. -/
def tagKey (t : JSStr) : Nat × Nat × Nat × Nat :=
  match (splitOnChar '.' t).map parseDigits with
  | [x, y, z, r] => (x, y, z, r)
  | _ => (0, 0, 0, 0)

/-- Component-wise integer comparison of version quadruples. -/
def quadCompare (p q : Nat × Nat × Nat × Nat) : Ordering :=
  match compare p.1 q.1 with
  | .eq =>
    match compare p.2.1 q.2.1 with
    | .eq =>
      match compare p.2.2.1 q.2.2.1 with
      | .eq => compare p.2.2.2 q.2.2.2
      | o => o
    | o => o
  | o => o

/-- Error type of the git operations that can fail in the scripts. -/
inductive GitError where
  | badRevision
  | networkError
  | tagAlreadyExists
deriving DecidableEq

/-- State of the repository as the scripts see it: the tag list (name and
target commit) and, for each existing ref, the subject lines that
`git log ref..HEAD --pretty=format:%s --no-merges` prints. -/
structure GitState where
  tags : List (JSStr × JSStr)
  logFor : JSStr → JSStr

/-- Names of all tags, as returned by `git.tags().all`. -/
def tagNames (st : GitState) : List JSStr := st.tags.map Prod.fst

/-- `tagExists`: membership in `git.tags().all`. -/
def tagExists (st : GitState) (tag : JSStr) : Bool := (tagNames st).contains tag

/-- `getAllTags` of `release.ts`: all tags matching the 4-integer pattern,
sorted with `(a, b) => b.localeCompare(a, undefined, numeric: true)`. -/
def getAllTags (st : GitState) : List JSStr :=
  jsSortDesc ((tagNames st).filter matchesTagPattern)

/-- `getLatestTag`: head of the sorted tag list, or `null`. -/
def getLatestTag (st : GitState) : Option JSStr := (getAllTags st).head?

/-- The three emoji markers of the changelog regex class
(`U+1F4A5`, `U+2728`, `U+1F41B`). -/
def isEmojiMarker (c : Char) : Bool := c == '💥' || c == '✨' || c == '🐛'

/-- The filter predicate of `getChangelogSince`: the regex
`^[\u.1F4A5 \u.2728 \u.1F41B]` with the `u` flag, tested against
`line.trim()`. -/
def qualifiesForChangelog (line : JSStr) : Bool :=
  match jsTrim line with
  | [] => false
  | c :: _ => isEmojiMarker c

/-- `git log fromTag..HEAD --pretty=format:%s --no-merges` through
`git.raw`: the recorded subject lines if the ref resolves, an error
otherwise. -/
def gitLogRaw (st : GitState) (fromTag : JSStr) : Except GitError JSStr :=
  if tagExists st fromTag then .ok (st.logFor fromTag) else .error .badRevision

/-- `getChangelogSince` of `release.ts`: if the tag is missing, warn (the
`Bool` in the result records that the warning was printed) and return no
lines; otherwise split the log output on newlines and keep the emoji-marked
subjects. -/
def getChangelogSince (st : GitState) (fromTag : JSStr) :
    Except GitError (List JSStr × Bool) :=
  if tagExists st fromTag then
    match gitLogRaw st fromTag with
    | .ok logs => .ok ((splitOnChar '\n' logs).filter qualifiesForChangelog, false)
    | .error e => .error e
  else .ok ([], true)

/-- `getChangelogSince` of the `part000` variant: no existence check, so the
underlying `git log` error propagates (rejecting the promise). -/
def getChangelogSincePart000 (st : GitState) (fromTag : JSStr) :
    Except GitError (List JSStr) :=
  match gitLogRaw st fromTag with
  | .ok logs => .ok ((splitOnChar '\n' logs).filter qualifiesForChangelog)
  | .error e => .error e

/-- JS `x + 1` on a version component: increments a number, anything else
(`NaN`, `undefined`) becomes `NaN`. -/
def jsIncr : JSVal → JSVal
  | .num i => .num (i + 1)
  | _ => .nan

/-- JS strict comparison `a > b` on version components: false unless both are
numbers. -/
def jsGt (a b : JSVal) : Bool :=
  match a, b with
  | .num i, .num j => j < i
  | _, _ => false

/-- JS strict equality `a === b` on version components (`NaN === NaN` is
false, `undefined === undefined` is true). -/
def jsStrictEq (a b : JSVal) : Bool :=
  match a, b with
  | .num i, .num j => i == j
  | .undefined, .undefined => true
  | _, _ => false

/-- The destructuring `const [X, Y, Z, R] = tag.split(".").map(Number)` of
`findBiggerVersion`. -/
def tagComponents (tag : JSStr) : JSVal × JSVal × JSVal × JSVal :=
  let parts := (splitOnChar '.' tag).map jsNumber
  (jsValAt parts 0, jsValAt parts 1, jsValAt parts 2, jsValAt parts 3)

/-- The filter predicate of `findBiggerVersion` (lines 38–48 of
`release.ts`). -/
def tagBiggerThanCurrent (cur : VersionJS) (tag : JSStr) : Bool :=
  let c := tagComponents tag
  jsGt c.1 cur.X ||
    (jsStrictEq c.1 cur.X && jsGt c.2.1 cur.Y) ||
    (jsStrictEq c.1 cur.X && jsStrictEq c.2.1 cur.Y && jsGt c.2.2.1 cur.Z) ||
    (jsStrictEq c.1 cur.X && jsStrictEq c.2.1 cur.Y && jsStrictEq c.2.2.1 cur.Z &&
      jsGt c.2.2.2 cur.R)

/-- `findBiggerVersion`: first listed tag whose components exceed the current
version, or `null`. -/
def findBiggerVersion (cur : VersionJS) (st : GitState) : Option JSStr :=
  ((getAllTags st).filter (tagBiggerThanCurrent cur)).head?

/-- The ref the UAT release diffs against:
`(await latestTagVersion) || latestVersion || currentVersionStr`. -/
def uatFromTag (cur : VersionJS) (st : GitState) : JSStr :=
  match getLatestTag st with
  | some t => t
  | none =>
    match findBiggerVersion cur st with
    | some t => t
    | none => versionString cur

/-- Observable effects of one run of the UAT release branch of `release.ts`. -/
structure UatOutcome where
  versionWritten : JSStr
  changelogEntry : Option (JSStr × List JSStr)
  commitMade : Bool
  tagsDeleted : List JSStr
  tagsAdded : List JSStr
  tagsPushed : Bool
deriving DecidableEq

/-- The UAT release branch of `release.ts` (lines 172–192): increment `R` and
write the version file first; then query the changelog; on zero qualifying
subjects log and return; otherwise write and commit the changelog, create the
release tag, move `UAT-LATEST` and push.  (The unreachable error branch models
the script crashing after the version file was already written.) -/
def uatRelease (current : VersionJS) (st : GitState) : UatOutcome :=
  let bumped : VersionJS := { current with R := jsIncr current.R }
  let newTag := versionString bumped
  let fromTag := uatFromTag current st
  match getChangelogSince st fromTag with
  | .error _ =>
    { versionWritten := writeVersionIntoFile bumped, changelogEntry := none,
      commitMade := false, tagsDeleted := [], tagsAdded := [], tagsPushed := false }
  | .ok (logs, _) =>
    if logs.isEmpty then
      { versionWritten := writeVersionIntoFile bumped, changelogEntry := none,
        commitMade := false, tagsDeleted := [], tagsAdded := [], tagsPushed := false }
    else
      { versionWritten := writeVersionIntoFile bumped,
        changelogEntry := some (newTag, logs), commitMade := true,
        tagsDeleted := ["UAT-LATEST".data], tagsAdded := [newTag, "UAT-LATEST".data],
        tagsPushed := true }

/-- The four release transitions of the menu. -/
inductive ReleaseTransition where
  | uat
  | uatNext
  | prod
  | generation
deriving DecidableEq

/-- The first menu entry, identical in both scripts:
`UAT release, current version: <v>, changes will be tagged as <t>`. -/
def uatChoiceText (displayVersion newTag : JSStr) : JSStr :=
  "UAT release, current version: ".data ++ displayVersion ++
    ", changes will be tagged as ".data ++ newTag

/-- The four menu choices offered by both scripts. -/
def menuChoices (displayVersion newTag : JSStr) : List JSStr :=
  [uatChoiceText displayVersion newTag,
   "UAT start work on next release".data,
   "PROD release".data,
   "GENERATION".data]

/-- The dispatch chain of `release.ts` (lines 172, 193, 200, 227): the first
comparison is against `choices[0]`, the built menu string. -/
def dispatchReleaseTs (displayVersion newTag releaseType : JSStr) : Option ReleaseTransition :=
  if releaseType = uatChoiceText displayVersion newTag then some .uat
  else if releaseType = "UAT start work on next release".data then some .uatNext
  else if releaseType = "PROD release".data then some .prod
  else if releaseType = "GENERATION".data then some .generation
  else none

/-- The dispatch chain of the `part000` variant (lines 90, 98, 105, 132): the
first comparison is against the literal `"UAT release"`, not against the
offered menu string. -/
def dispatchPart000 (releaseType : JSStr) : Option ReleaseTransition :=
  if releaseType = "UAT release".data then some .uat
  else if releaseType = "UAT start work on next release".data then some .uatNext
  else if releaseType = "PROD release".data then some .prod
  else if releaseType = "GENERATION".data then some .generation
  else none

/-- `deleteRemoteTag`: delete the tag remotely and locally, each with
`.catch(() => ...)`, so a missing tag is silently ignored and the operation
never fails. -/
def deleteRemoteTag (st : GitState) (tag : JSStr) : GitState :=
  { st with tags := st.tags.filter (fun p => !(p.1 == tag)) }

/-- `git.addTag(name, ref)`: creates the tag pointing at `ref`; `git tag`
fails if the name already exists. -/
def addTag (st : GitState) (name target : JSStr) : Except GitError GitState :=
  if tagExists st name then .error .tagAlreadyExists
  else .ok { st with tags := st.tags ++ [(name, target)] }

/-- Moving the `PRODUCTION-LATEST` marker in the PROD release branch
(lines 214–215 of `release.ts`, 119–120 of `part000`): best-effort delete,
then recreate at the selected tag. -/
def moveProductionLatest (st : GitState) (selectedTag : JSStr) : Except GitError GitState :=
  addTag (deleteRemoteTag st "PRODUCTION-LATEST".data) "PRODUCTION-LATEST".data selectedTag

/-- The fields of the `simple-git` status summary consulted (or ignored) by
the pre-flight check. -/
structure StatusSummary where
  not_added : List JSStr
  created : List JSStr
  deleted : List JSStr
  modified : List JSStr
  renamed : List JSStr
deriving DecidableEq

/-- `getUnchangedFileCount`: the number of untracked + renamed + modified
files, or `-1` when `git.status()` itself failed. -/
def getUnchangedFileCount (r : Except GitError StatusSummary) : Int :=
  match r with
  | .ok s => ((s.not_added.length + s.renamed.length + s.modified.length : Nat) : Int)
  | .error _ => -1

/-- The pre-flight guard of `release.ts` (lines 137–143): abort the run iff
the count is greater than zero. -/
def preflightAborts (r : Except GitError StatusSummary) : Bool :=
  getUnchangedFileCount r > 0

/-- Spec wording of the changelog filter, for comparison with the code: the
first non-whitespace code point of the subject is one of the three markers. -/
def firstNonWsIsMarker (line : JSStr) : Bool :=
  match (line.dropWhile jsWhitespaceChar).head? with
  | some c => isEmojiMarker c
  | none => false

/-- Fixture: a repository with two releases whose log since either release
contains two marked subjects and one unmarked one. -/
def stateRich : GitState :=
  { tags := [("4.1.2.9".data, "c1".data), ("4.1.2.10".data, "c2".data)],
    logFor := fun _ => "✨ add X\nfix typo\n🐛 fix Y".data }

/-- Fixture: a repository with one release and no marked commit subjects since
it. -/
def stateNoChanges : GitState :=
  { tags := [("1.0.0.1".data, "c1".data)],
    logFor := fun _ => "nothing interesting".data }

/-- Fixture: two version tags that are distinct strings but the same numeric
quadruple (leading zero). -/
def stateDup : GitState :=
  { tags := [("4.01.2.3".data, "a".data), ("4.1.2.3".data, "b".data)],
    logFor := fun _ => [] }

/-- The current version `4.1.2.3` used by the concrete fixtures. -/
def versionFixture : VersionJS := { X := .num 4, Y := .num 1, Z := .num 2, R := .num 3 }

/-! ## Claim theorems -/

/-- Auxiliary: an `Ordering` other than `gt` is `lt` or `eq`. -/
theorem ordering_ne_gt_iff (o : Ordering) : o ≠ .gt ↔ o = .lt ∨ o = .eq := by
  cases o <;> simp

/-- C1 (counterexample): a version-file content with only three dot-separated
segments does not make the read fail; it returns a `Version` whose fourth
component is `undefined`. -/
theorem c1_malformed_read_returns_version :
    readCurrentVersionFromFile "1.2.3".data =
      .ok { X := .num 1, Y := .num 2, Z := .num 3, R := .undefined } := by decide

/-- C1 (amended): the version-store read operation never fails: for every
content, also one without exactly 4 dot-separated numeric segments, it
returns a `Version` value (with `undefined` or `NaN` components where
segments are missing or non-numeric) instead of a `CorruptVersionFile`
error. -/
theorem c1_read_never_fails (content : JSStr) :
    ∃ v, readCurrentVersionFromFile content = .ok v := ⟨_, rfl⟩

/-- C6: when the tag passed to `getChangelogSince` does not exist, the query
returns the empty sequence together with the printed warning, and does not
fail. -/
theorem c6_missing_tag_yields_empty_and_warns (st : GitState) (tag : JSStr)
    (h : tagExists st tag = false) :
    getChangelogSince st tag = .ok ([], true) := by
  simp [getChangelogSince, h]

/-- C6 (witness): `commitsSince("9.9.9.9")` on a repository without that tag
yields `[]` and warns. -/
theorem c6_missing_tag_witness :
    tagExists stateRich "9.9.9.9".data = false ∧
      getChangelogSince stateRich "9.9.9.9".data = .ok ([], true) :=
  ⟨by decide, c6_missing_tag_yields_empty_and_warns stateRich "9.9.9.9".data (by decide)⟩

/-- C8: for every starting version `(X, Y, Z, R)`, the UAT release branch
writes `X.Y.Z.(R+1)` to the version file, whatever the repository state. -/
theorem c8_uat_release_increments_revision (x y z r : Int) (st : GitState) :
    (uatRelease { X := .num x, Y := .num y, Z := .num z, R := .num r } st).versionWritten =
      writeVersionIntoFile { X := .num x, Y := .num y, Z := .num z, R := .num (r + 1) } := by
  unfold uatRelease
  dsimp only
  split
  · rfl
  · split <;> rfl

/-- C10: if `git.status()` itself fails, `getUnchangedFileCount` returns `-1`
and the pre-flight guard does not abort; and the count depends only on the
untracked (`not_added`), renamed, and modified lists, never on the deleted or
created ones. -/
theorem c10_preflight_error_and_counted_fields :
    (∀ e : GitError,
      getUnchangedFileCount (.error e) = -1 ∧ preflightAborts (.error e) = false) ∧
    (∀ s : StatusSummary,
      getUnchangedFileCount (.ok s) =
        ((s.not_added.length + s.renamed.length + s.modified.length : Nat) : Int)) ∧
    (∀ (s : StatusSummary) (del cre : List JSStr),
      preflightAborts (.ok { s with deleted := del, created := cre }) =
        preflightAborts (.ok s)) :=
  ⟨fun _ => ⟨rfl, rfl⟩, fun _ => rfl, fun _ _ _ => rfl⟩

/-- C3 (code evaluated at the failing input): in the `part000` variant the
first offered menu choice (here for current version `4.1.2.3`) is dispatched
against the literal `"UAT release"`, so selecting it executes no transition at
all, while `release.ts` dispatches the same selection to the UAT release
transition. -/
theorem c3_part000_first_choice_dead :
    uatChoiceText "4.1.2.3".data "4.1.2.4".data ∈
        menuChoices "4.1.2.3".data "4.1.2.4".data ∧
      dispatchPart000 (uatChoiceText "4.1.2.3".data "4.1.2.4".data) = none ∧
      dispatchReleaseTs "4.1.2.3".data "4.1.2.4".data
          (uatChoiceText "4.1.2.3".data "4.1.2.4".data) = some .uat := by
  refine ⟨?_, by decide, by decide⟩
  simp [menuChoices]

/-- C2: a UAT release run whose commit query (against the ref the script
chose) yields zero qualifying subjects creates no tag, writes no changelog
entry and makes no commit — but the version file has already been rewritten
with `R` incremented. -/
theorem c2_uat_zero_commits_only_version_written (x y z r : Int) (st : GitState) (w : Bool)
    (h : getChangelogSince st
        (uatFromTag { X := .num x, Y := .num y, Z := .num z, R := .num r } st) = .ok ([], w)) :
    uatRelease { X := .num x, Y := .num y, Z := .num z, R := .num r } st =
      { versionWritten :=
          writeVersionIntoFile { X := .num x, Y := .num y, Z := .num z, R := .num (r + 1) },
        changelogEntry := none, commitMade := false, tagsDeleted := [], tagsAdded := [],
        tagsPushed := false } := by
  unfold uatRelease
  dsimp only
  rw [h]
  rfl

/-- C2 (witness): with one prior release and no marked commit subjects, the
run starting from version `4.1.2.3` writes `4.1.2.4` and nothing else. -/
theorem c2_uat_zero_commits_witness :
    getChangelogSince stateNoChanges (uatFromTag versionFixture stateNoChanges) =
        .ok ([], false) ∧
      uatRelease versionFixture stateNoChanges =
        { versionWritten :=
            writeVersionIntoFile { X := .num 4, Y := .num 1, Z := .num 2, R := .num (3 + 1) },
          changelogEntry := none, commitMade := false, tagsDeleted := [], tagsAdded := [],
          tagsPushed := false } :=
  ⟨by decide, c2_uat_zero_commits_only_version_written 4 1 2 3 stateNoChanges false (by decide)⟩

/-- Auxiliary: a key that is not among the map keys has no lookup result. -/
theorem lookup_eq_none_of_contains_false {l : List (JSStr × JSStr)} {n : JSStr}
    (h : (l.map Prod.fst).contains n = false) : List.lookup n l = none := by
  induction l with
  | nil => rfl
  | cons p rest ih =>
    cases p with
    | mk k v =>
      simp only [List.map_cons, List.contains_cons, Bool.or_eq_false_iff] at h
      simp [List.lookup, h.1, ih h.2]

/-- Auxiliary: lookup skips a prefix that does not hold the key. -/
theorem lookup_append_of_none {l1 l2 : List (JSStr × JSStr)} {n : JSStr}
    (h : List.lookup n l1 = none) : List.lookup n (l1 ++ l2) = List.lookup n l2 := by
  induction l1 with
  | nil => rfl
  | cons p rest ih =>
    cases p with
    | mk k v =>
      cases hb : n == k with
      | true =>
        rw [List.lookup_cons, hb] at h
        exact absurd h (by simp)
      | false =>
        rw [List.lookup_cons, hb] at h
        rw [List.cons_append, List.lookup_cons, hb]
        exact ih h

/-- Auxiliary: after `deleteRemoteTag st n` the tag `n` no longer exists. -/
theorem tagExists_deleteRemoteTag_self (st : GitState) (n : JSStr) :
    tagExists (deleteRemoteTag st n) n = false := by
  rw [Bool.eq_false_iff]
  intro hc
  have hm : n ∈ (st.tags.filter (fun p => !(p.1 == n))).map Prod.fst := by
    simpa [tagExists, tagNames, deleteRemoteTag] using hc
  obtain ⟨p, hpf, hpn⟩ := List.mem_map.mp hm
  have := (List.mem_filter.mp hpf).2
  rw [hpn] at this
  simp at this

/-- C9: moving the `PRODUCTION-LATEST` marker while it does not yet exist
raises no error, and afterwards the marker points at the selected tag. -/
theorem c9_move_absent_marker_succeeds (st : GitState) (sel : JSStr)
    (h : tagExists st "PRODUCTION-LATEST".data = false) :
    ∃ st2, moveProductionLatest st sel = .ok st2 ∧
      List.lookup "PRODUCTION-LATEST".data st2.tags = some sel := by
  have hdel := tagExists_deleteRemoteTag_self st "PRODUCTION-LATEST".data
  have hnone : List.lookup "PRODUCTION-LATEST".data
      (deleteRemoteTag st "PRODUCTION-LATEST".data).tags = none :=
    lookup_eq_none_of_contains_false (by simpa [tagExists, tagNames] using hdel)
  simp only [moveProductionLatest, addTag, hdel, Bool.false_eq_true, if_false]
  refine ⟨_, rfl, ?_⟩
  rw [lookup_append_of_none hnone]
  simp [List.lookup]

/-- C9 (witness): creating `PRODUCTION-LATEST` for the first time, pointing it
at the selected tag `4.1.2.10`, on a repository without the marker. -/
theorem c9_move_absent_marker_witness :
    tagExists stateNoChanges "PRODUCTION-LATEST".data = false ∧
      ∃ st2, moveProductionLatest stateNoChanges "4.1.2.10".data = .ok st2 ∧
        List.lookup "PRODUCTION-LATEST".data st2.tags = some "4.1.2.10".data :=
  ⟨by decide,
    c9_move_absent_marker_succeeds stateNoChanges "4.1.2.10".data (by decide)⟩

/-- Auxiliary: the element `dropWhile` stops at falsifies the predicate. -/
theorem dropWhile_head_pred_false {p : Char → Bool} :
    ∀ {l : JSStr} {c : Char} {cs : JSStr}, l.dropWhile p = c :: cs → p c = false := by
  intro l
  induction l with
  | nil => intro c cs h; cases h
  | cons x xs ih =>
    intro c cs h
    rw [List.dropWhile_cons] at h
    by_cases hp : p x = true
    · rw [if_pos hp] at h
      exact ih h
    · rw [if_neg hp] at h
      cases h
      exact Bool.eq_false_iff.mpr hp

/-- Auxiliary: dropping from a list ending in a kept element keeps that
element at the end. -/
theorem dropWhile_append_last {p : Char → Bool} {c : Char} (hc : p c = false) :
    ∀ xs : JSStr, ∃ ys, (xs ++ [c]).dropWhile p = ys ++ [c] := by
  intro xs
  induction xs with
  | nil =>
    refine ⟨[], ?_⟩
    simp [List.dropWhile_cons, hc]
  | cons x xs ih =>
    rw [List.cons_append, List.dropWhile_cons]
    by_cases hp : p x = true
    · rw [if_pos hp]
      exact ih
    · rw [if_neg hp]
      exact ⟨x :: xs, rfl⟩

/-- Auxiliary: trimming does not change the first remaining code point — the
head of the trimmed string is the first non-whitespace code point. -/
theorem head_jsTrim (l : JSStr) :
    (jsTrim l).head? = (l.dropWhile jsWhitespaceChar).head? := by
  unfold jsTrim
  cases hm : l.dropWhile jsWhitespaceChar with
  | nil => simp
  | cons c cs =>
    have hc := dropWhile_head_pred_false hm
    rw [List.reverse_cons]
    obtain ⟨ys, hys⟩ := dropWhile_append_last hc cs.reverse
    rw [hys, List.reverse_append]
    simp

/-- Auxiliary: the code's filter predicate (first code point of the trimmed
line) agrees with "first non-whitespace code point is a marker". -/
theorem qualifies_eq_firstNonWs (l : JSStr) :
    qualifiesForChangelog l = firstNonWsIsMarker l := by
  unfold qualifiesForChangelog firstNonWsIsMarker
  rw [← head_jsTrim]
  cases jsTrim l <;> rfl

/-- C7 (counterexample): the query keeps the subject `" ✨ add X"`, whose
first character is a space, not one of the three markers — the kept set is
not "exactly those whose first character is a marker". -/
theorem c7_first_char_counterexample :
    List.filter qualifiesForChangelog [" ✨ add X".data] = [" ✨ add X".data] ∧
      (" ✨ add X".data).head? = some ' ' ∧ isEmojiMarker ' ' = false := by decide

/-- C7 (amended): for every list of subject lines, the changelog query keeps
exactly those subjects whose first non-whitespace code point (the first
character of the trimmed subject) is one of the three designated emoji
markers. -/
theorem c7_filter_keeps_marked_subjects (lines : List JSStr) :
    lines.filter qualifiesForChangelog = lines.filter firstNonWsIsMarker :=
  List.filter_congr (fun l _ => qualifies_eq_firstNonWs l)

/-- Auxiliary: `digitChar` produces digits. -/
theorem isDigitChar_digitChar {k : Nat} (h : k < 10) : isDigitChar (digitChar k) = true := by
  interval_cases k <;> decide

/-- Auxiliary: the digit value of `digitChar k`. -/
theorem toNat_digitChar {k : Nat} (h : k < 10) : (digitChar k).toNat - 48 = k := by
  interval_cases k <;> decide

/-- Auxiliary: `parseDigits` over an appended final digit. -/
theorem parseDigits_append (l : JSStr) (c : Char) :
    parseDigits (l ++ [c]) = parseDigits l * 10 + (c.toNat - 48) := by
  unfold parseDigits
  rw [List.foldl_append]
  rfl

/-- Auxiliary: with enough fuel, the digit expansion is nonempty, all digits,
and parses back to the number. -/
theorem natToDigitsAux_spec :
    ∀ f n, n < f →
      natToDigitsAux f n ≠ [] ∧ (∀ c ∈ natToDigitsAux f n, isDigitChar c = true) ∧
        parseDigits (natToDigitsAux f n) = n := by
  intro f
  induction f with
  | zero => intro n hn; omega
  | succ f ih =>
    intro n hn
    by_cases h10 : n < 10
    · refine ⟨by simp [natToDigitsAux, h10], ?_, ?_⟩
      · intro c hc
        simp only [natToDigitsAux, if_pos h10, List.mem_singleton] at hc
        rw [hc]
        exact isDigitChar_digitChar h10
      · simp only [natToDigitsAux, if_pos h10]
        show parseDigits ([] ++ [digitChar n]) = n
        rw [parseDigits_append, toNat_digitChar h10]
        simp [parseDigits]
    · have hdiv : n / 10 < f := by
        have := Nat.div_lt_self (by omega : 0 < n) (by omega : 1 < 10)
        omega
      obtain ⟨hne, hdig, hval⟩ := ih (n / 10) hdiv
      simp only [natToDigitsAux, if_neg h10]
      refine ⟨by simp, ?_, ?_⟩
      · intro c hc
        rcases List.mem_append.mp hc with hc1 | hc2
        · exact hdig c hc1
        · rw [List.mem_singleton.mp hc2]
          exact isDigitChar_digitChar (Nat.mod_lt n (by omega))
      · rw [parseDigits_append, hval, toNat_digitChar (Nat.mod_lt n (by omega))]
        omega

/-- Auxiliary: the digit expansion of `n` is nonempty. -/
theorem natToDigits_ne_nil (n : Nat) : natToDigits n ≠ [] :=
  (natToDigitsAux_spec (n + 1) n (by omega)).1

/-- Auxiliary: the digit expansion of `n` is all digits. -/
theorem natToDigits_all_digits (n : Nat) : ∀ c ∈ natToDigits n, isDigitChar c = true :=
  (natToDigitsAux_spec (n + 1) n (by omega)).2.1

/-- Auxiliary: parsing the digit expansion of `n` gives back `n`. -/
theorem parseDigits_natToDigits (n : Nat) : parseDigits (natToDigits n) = n :=
  (natToDigitsAux_spec (n + 1) n (by omega)).2.2

/-- Auxiliary: serializing a non-negative integer is the natural-number digit
expansion. -/
theorem intToChars_ofNat (n : Nat) : intToChars (n : Int) = natToDigits n := by
  unfold intToChars
  rw [if_neg (by omega)]
  rfl

/-- Auxiliary: digits are not whitespace. -/
theorem digit_not_ws {c : Char} (h : isDigitChar c = true) : jsWhitespaceChar c = false := by
  simp only [isDigitChar, Bool.and_eq_true, decide_eq_true_eq] at h
  simp only [jsWhitespaceChar, Bool.or_eq_false_iff, beq_eq_false_iff_ne, ne_eq]
  omega

/-- Auxiliary: a digit is not the dot separator. -/
theorem digit_ne_dot {c : Char} (h : isDigitChar c = true) : ¬ c = '.' := by
  intro hc
  rw [hc] at h
  exact absurd h (by decide)

/-- Auxiliary: a digit is not the minus sign. -/
theorem digit_ne_dash {c : Char} (h : isDigitChar c = true) : ¬ c = '-' := by
  intro hc
  rw [hc] at h
  exact absurd h (by decide)

/-- Auxiliary: `dropWhile` keeps a list whose members all falsify the
predicate. -/
theorem dropWhile_eq_self_of_all {p : Char → Bool} :
    ∀ {l : JSStr}, (∀ c ∈ l, p c = false) → l.dropWhile p = l := by
  intro l h
  cases l with
  | nil => rfl
  | cons x xs =>
    rw [List.dropWhile_cons, if_neg]
    rw [h x (List.mem_cons_self x xs)]
    simp

/-- Auxiliary: trimming a string with no whitespace is the identity. -/
theorem jsTrim_eq_self {l : JSStr} (h : ∀ c ∈ l, jsWhitespaceChar c = false) :
    jsTrim l = l := by
  unfold jsTrim
  rw [dropWhile_eq_self_of_all h,
    dropWhile_eq_self_of_all (fun c hc => h c (List.mem_reverse.mp hc)),
    List.reverse_reverse]

/-- Auxiliary: splitting at an explicit separator position. -/
theorem splitOnChar_append_sep {sep : Char} :
    ∀ {s r : JSStr}, (∀ c ∈ s, ¬ c = sep) →
      splitOnChar sep (s ++ sep :: r) = s :: splitOnChar sep r := by
  intro s
  induction s with
  | nil =>
    intro r _
    simp [splitOnChar]
  | cons c cs ih =>
    intro r h
    have hc : ¬ c = sep := h c (List.mem_cons_self c cs)
    have hrest := ih (r := r) (fun d hd => h d (List.mem_cons_of_mem c hd))
    rw [List.cons_append]
    show splitOnChar sep (c :: (cs ++ sep :: r)) = (c :: cs) :: splitOnChar sep r
    simp only [splitOnChar, if_neg hc, hrest]

/-- Auxiliary: splitting a separator-free string. -/
theorem splitOnChar_no_sep {sep : Char} :
    ∀ {s : JSStr}, (∀ c ∈ s, ¬ c = sep) → splitOnChar sep s = [s] := by
  intro s
  induction s with
  | nil => intro _; rfl
  | cons c cs ih =>
    intro h
    unfold splitOnChar
    rw [if_neg (h c (List.mem_cons_self c cs))]
    rw [ih (fun d hd => h d (List.mem_cons_of_mem c hd))]

/-- Auxiliary: `Number` of a digit expansion is the number. -/
theorem jsNumber_natToDigits (n : Nat) : jsNumber (natToDigits n) = .num n := by
  have hdig := natToDigits_all_digits n
  have htrim : jsTrim (natToDigits n) = natToDigits n :=
    jsTrim_eq_self (fun c hc => digit_not_ws (hdig c hc))
  unfold jsNumber
  rw [htrim]
  rw [if_neg (natToDigits_ne_nil n)]
  rw [if_neg ?hdash]
  case hdash =>
    cases hd : natToDigits n with
    | nil => exact absurd hd (natToDigits_ne_nil n)
    | cons c cs =>
      have hc : isDigitChar c = true := hdig c (hd ▸ List.mem_cons_self c cs)
      simp only [List.head?_cons, Option.some.injEq]
      exact digit_ne_dash hc
  rw [if_pos (List.all_eq_true.mpr hdig)]
  rw [parseDigits_natToDigits]

/-- Auxiliary: reading back a written all-numeric version value. -/
theorem read_write_version (x y z r : Nat) :
    readCurrentVersionFromFile
        (writeVersionIntoFile { X := .num x, Y := .num y, Z := .num z, R := .num r }) =
      .ok { X := .num x, Y := .num y, Z := .num z, R := .num r } := by
  have hcontent : writeVersionIntoFile { X := .num x, Y := .num y, Z := .num z, R := .num r } =
      natToDigits x ++ '.' :: (natToDigits y ++ '.' :: (natToDigits z ++ '.' :: natToDigits r)) := by
    show versionString _ = _
    unfold versionString
    simp only [jsvalToChars]
    rw [intToChars_ofNat, intToChars_ofNat, intToChars_ofNat, intToChars_ofNat]
  rw [hcontent]
  have hnws : ∀ c ∈ natToDigits x ++ '.' ::
      (natToDigits y ++ '.' :: (natToDigits z ++ '.' :: natToDigits r)),
      jsWhitespaceChar c = false := by
    intro c hc
    simp only [List.mem_append, List.mem_cons] at hc
    rcases hc with h1 | h2 | h3 | h4 | h5 | h6 | h7
    · exact digit_not_ws (natToDigits_all_digits x c h1)
    · rw [h2]; decide
    · exact digit_not_ws (natToDigits_all_digits y c h3)
    · rw [h4]; decide
    · exact digit_not_ws (natToDigits_all_digits z c h5)
    · rw [h6]; decide
    · exact digit_not_ws (natToDigits_all_digits r c h7)
  have hsplit : splitOnChar '.'
      (natToDigits x ++ '.' :: (natToDigits y ++ '.' :: (natToDigits z ++ '.' :: natToDigits r))) =
      [natToDigits x, natToDigits y, natToDigits z, natToDigits r] := by
    rw [splitOnChar_append_sep (fun c hc => digit_ne_dot (natToDigits_all_digits x c hc))]
    rw [splitOnChar_append_sep (fun c hc => digit_ne_dot (natToDigits_all_digits y c hc))]
    rw [splitOnChar_append_sep (fun c hc => digit_ne_dot (natToDigits_all_digits z c hc))]
    rw [splitOnChar_no_sep (fun c hc => digit_ne_dot (natToDigits_all_digits r c hc))]
  unfold readCurrentVersionFromFile
  rw [jsTrim_eq_self hnws, hsplit]
  simp only [List.map_cons, List.map_nil, jsNumber_natToDigits]
  rfl

/-- C5: for every version of four non-negative integers, reading the written
version file back and writing the result again reproduces the identical
4-tuple string. -/
theorem c5_version_file_roundtrip (x y z r : Nat) :
    (readCurrentVersionFromFile
        (writeVersionIntoFile { X := .num x, Y := .num y, Z := .num z, R := .num r })).map
        writeVersionIntoFile =
      .ok (writeVersionIntoFile { X := .num x, Y := .num y, Z := .num z, R := .num r }) := by
  rw [read_write_version]
  rfl

/-- Auxiliary: comparing a key pair against itself. -/
theorem prodCompare_self (a : Nat × Nat) : prodCompare a a = .eq := by
  obtain ⟨a1, a2⟩ := a
  simp only [prodCompare, Nat.compare_def_lt]
  split_ifs <;> first | rfl | (exfalso; omega)

/-- Auxiliary: swapping the arguments of the key comparison swaps the
verdict. -/
theorem prodCompare_swap (a b : Nat × Nat) : (prodCompare a b).swap = prodCompare b a := by
  obtain ⟨a1, a2⟩ := a
  obtain ⟨b1, b2⟩ := b
  simp only [prodCompare, Nat.compare_def_lt]
  split_ifs <;> first | rfl | (exfalso; omega)

/-- Auxiliary: the key comparison is `eq` exactly on equal pairs. -/
theorem prodCompare_eq_iff (a b : Nat × Nat) : prodCompare a b = .eq ↔ a = b := by
  obtain ⟨a1, a2⟩ := a
  obtain ⟨b1, b2⟩ := b
  simp only [prodCompare, Nat.compare_def_lt, Prod.mk.injEq]
  split_ifs <;> simp <;> omega

/-- Auxiliary: the key comparison is transitive in its strict part. -/
theorem prodCompare_lt_trans {a b c : Nat × Nat} (h1 : prodCompare a b = .lt)
    (h2 : prodCompare b c = .lt) : prodCompare a c = .lt := by
  obtain ⟨a1, a2⟩ := a
  obtain ⟨b1, b2⟩ := b
  obtain ⟨c1, c2⟩ := c
  simp only [prodCompare, Nat.compare_def_lt] at h1 h2 ⊢
  split_ifs at h1 h2 ⊢ <;> first | rfl | omega | (exfalso; omega) | simp_all

/-- Auxiliary: swapping the arguments of the token-stream comparison swaps the
verdict. -/
theorem lexTokCompare_swap : ∀ ts us, (lexTokCompare ts us).swap = lexTokCompare us ts := by
  intro ts
  induction ts with
  | nil => intro us; cases us <;> rfl
  | cons t ts ih =>
    intro us
    cases us with
    | nil => rfl
    | cons u us2 =>
      show (match prodCompare (tokKey t) (tokKey u) with
        | .eq => lexTokCompare ts us2
        | o => o).swap =
        match prodCompare (tokKey u) (tokKey t) with
        | .eq => lexTokCompare us2 ts
        | o => o
      rw [← prodCompare_swap (tokKey t) (tokKey u)]
      cases prodCompare (tokKey t) (tokKey u) with
      | lt => rfl
      | eq => exact ih us2
      | gt => rfl

/-- Auxiliary: the token-stream comparison is `eq` exactly on streams with
equal keys. -/
theorem lexTokCompare_eq_iff :
    ∀ ts us, lexTokCompare ts us = .eq ↔ ts.map tokKey = us.map tokKey := by
  intro ts
  induction ts with
  | nil => intro us; cases us <;> simp [lexTokCompare]
  | cons t ts ih =>
    intro us
    cases us with
    | nil => simp [lexTokCompare]
    | cons u us2 =>
      show (match prodCompare (tokKey t) (tokKey u) with
        | .eq => lexTokCompare ts us2
        | o => o) = .eq ↔ _
      cases hp : prodCompare (tokKey t) (tokKey u) with
      | lt =>
        have hne : tokKey t ≠ tokKey u := fun he => by
          rw [he, prodCompare_self] at hp
          cases hp
        simp only [List.map_cons, List.cons.injEq]
        exact iff_of_false (fun hc => by cases hc) (fun hc => hne hc.1)
      | eq =>
        have he : tokKey t = tokKey u := (prodCompare_eq_iff _ _).mp hp
        simp only [List.map_cons, List.cons.injEq, he, true_and]
        exact ih us2
      | gt =>
        have hne : tokKey t ≠ tokKey u := fun he => by
          rw [he, prodCompare_self] at hp
          cases hp
        simp only [List.map_cons, List.cons.injEq]
        exact iff_of_false (fun hc => by cases hc) (fun hc => hne hc.1)

/-- Auxiliary: the non-`gt` part of the token-stream comparison is
transitive. -/
theorem lexTokCompare_notgt_trans :
    ∀ ts us vs, lexTokCompare ts us ≠ .gt → lexTokCompare us vs ≠ .gt →
      lexTokCompare ts vs ≠ .gt := by
  intro ts
  induction ts with
  | nil => intro us vs _ _; cases vs <;> simp [lexTokCompare]
  | cons t ts ih =>
    intro us vs h1 h2
    cases us with
    | nil => exact absurd rfl h1
    | cons u us2 =>
      cases vs with
      | nil => exact absurd rfl h2
      | cons v vs2 =>
        have h1m : (match prodCompare (tokKey t) (tokKey u) with
          | .eq => lexTokCompare ts us2
          | o => o) ≠ .gt := h1
        have h2m : (match prodCompare (tokKey u) (tokKey v) with
          | .eq => lexTokCompare us2 vs2
          | o => o) ≠ .gt := h2
        show (match prodCompare (tokKey t) (tokKey v) with
          | .eq => lexTokCompare ts vs2
          | o => o) ≠ .gt
        cases hp1 : prodCompare (tokKey t) (tokKey u) with
        | gt => rw [hp1] at h1m; exact absurd rfl h1m
        | eq =>
          have he1 : tokKey t = tokKey u := (prodCompare_eq_iff _ _).mp hp1
          rw [hp1] at h1m
          cases hp2 : prodCompare (tokKey u) (tokKey v) with
          | gt => rw [hp2] at h2m; exact absurd rfl h2m
          | eq =>
            have he2 : tokKey u = tokKey v := (prodCompare_eq_iff _ _).mp hp2
            rw [hp2] at h2m
            have hv : prodCompare (tokKey t) (tokKey v) = .eq :=
              (prodCompare_eq_iff _ _).mpr (he1.trans he2)
            rw [hv]
            exact ih us2 vs2 h1m h2m
          | lt =>
            have hv : prodCompare (tokKey t) (tokKey v) = .lt := he1 ▸ hp2
            rw [hv]
            intro hc
            cases hc
        | lt =>
          cases hp2 : prodCompare (tokKey u) (tokKey v) with
          | gt => rw [hp2] at h2m; exact absurd rfl h2m
          | eq =>
            have he2 : tokKey u = tokKey v := (prodCompare_eq_iff _ _).mp hp2
            have hv : prodCompare (tokKey t) (tokKey v) = .lt := he2 ▸ hp1
            rw [hv]
            intro hc
            cases hc
          | lt =>
            have hv : prodCompare (tokKey t) (tokKey v) = .lt :=
              prodCompare_lt_trans hp1 hp2
            rw [hv]
            intro hc
            cases hc

/-- Auxiliary: the sort comparator accepts `a` before `b` exactly when the
collation of `b` against `a` is not `gt`. -/
theorem jsDescRel_iff (a b : JSStr) : jsDescRel a b ↔ localeCompareNumeric b a ≠ .gt := by
  unfold jsDescRel jsDescLe
  cases localeCompareNumeric b a <;> simp

/-- Auxiliary: the sort comparator relation is transitive. -/
theorem jsDescRel_trans (a b c : JSStr) (h1 : jsDescRel a b) (h2 : jsDescRel b c) :
    jsDescRel a c := by
  rw [jsDescRel_iff] at h1 h2 ⊢
  exact lexTokCompare_notgt_trans _ _ _ h2 h1

/-- Auxiliary: the sort comparator relation is total. -/
theorem jsDescRel_total (a b : JSStr) : jsDescRel a b ∨ jsDescRel b a := by
  rw [jsDescRel_iff, jsDescRel_iff]
  cases hab : localeCompareNumeric b a with
  | lt => exact Or.inl (fun hc => by cases hc)
  | eq => exact Or.inl (fun hc => by cases hc)
  | gt =>
    refine Or.inr (fun hc => ?_)
    have hsw := lexTokCompare_swap (tokenize b) (tokenize a)
    have hab2 : lexTokCompare (tokenize b) (tokenize a) = .gt := hab
    have hc2 : lexTokCompare (tokenize a) (tokenize b) = .gt := hc
    rw [hab2, hc2] at hsw
    exact absurd hsw (by decide)

/-- Auxiliary: tokenizing from a non-digit code point emits it as a single
token. -/
theorem tokenize_nonDigit_cons {c : Char} (hc : isDigitChar c = false) (r : JSStr) :
    tokenize (c :: r) = .chr c :: tokenize r := by
  simp [tokenize, hc]

/-- Auxiliary: tokenizing from a digit code point merges it into the leading
numeric token of the rest. -/
theorem tokenize_digit_cons {c : Char} (hc : isDigitChar c = true) (r : JSStr) :
    tokenize (c :: r) =
      match tokenize r with
      | .num ds :: ts => .num (c :: ds) :: ts
      | ts => .num [c] :: ts := by
  simp only [tokenize, hc, if_true]

/-- Auxiliary: a maximal digit run followed by a non-digit (or nothing)
tokenizes to one numeric token. -/
theorem tokenize_digits_append :
    ∀ {s : JSStr}, s ≠ [] → (∀ c ∈ s, isDigitChar c = true) →
      ∀ {r : JSStr}, (∀ d, r.head? = some d → isDigitChar d = false) →
        tokenize (s ++ r) = .num s :: tokenize r := by
  intro s
  induction s with
  | nil => intro h; exact absurd rfl h
  | cons c s2 ih =>
    intro _ hdig r hr
    have hcdig : isDigitChar c = true := hdig c (List.mem_cons_self c s2)
    cases s2 with
    | nil =>
      show tokenize (c :: r) = .num [c] :: tokenize r
      cases r with
      | nil => simp [tokenize, hcdig]
      | cons d r2 =>
        have hd : isDigitChar d = false := hr d rfl
        rw [tokenize_digit_cons hcdig, tokenize_nonDigit_cons hd]
    | cons c2 s3 =>
      have hrest := ih (by simp) (fun d hd => hdig d (List.mem_cons_of_mem c hd)) hr
      rw [List.cons_append] at hrest
      show tokenize ((c :: c2 :: s3) ++ r) = .num (c :: c2 :: s3) :: tokenize r
      rw [List.cons_append, List.cons_append, tokenize_digit_cons hcdig, hrest]

/-- Auxiliary: an all-digit nonempty string is a single numeric token. -/
theorem tokenize_all_digits {s : JSStr} (hne : s ≠ [])
    (hdig : ∀ c ∈ s, isDigitChar c = true) : tokenize s = [.num s] := by
  have h := tokenize_digits_append hne hdig (r := []) (fun d hd => by cases hd)
  simpa using h

/-- Auxiliary: the split function never returns an empty list of groups. -/
theorem splitOnChar_ne_nil (sep : Char) : ∀ l : JSStr, splitOnChar sep l ≠ [] := by
  intro l
  cases l with
  | nil => simp [splitOnChar]
  | cons c cs =>
    unfold splitOnChar
    by_cases hc : c = sep
    · simp [hc]
    · rw [if_neg hc]
      cases splitOnChar sep cs <;> simp

/-- Inverse of `splitOnChar`: interleave the separator between the groups. -/
def joinSep (sep : Char) : List JSStr → JSStr
  | [] => []
  | [s] => s
  | s :: ss => s ++ sep :: joinSep sep ss

/-- Auxiliary: joining a group extended at the front. -/
theorem joinSep_cons_head (sep c : Char) (g : JSStr) (gs : List JSStr) :
    joinSep sep ((c :: g) :: gs) = c :: joinSep sep (g :: gs) := by
  cases gs <;> rfl

/-- Auxiliary: splitting and rejoining is the identity. -/
theorem joinSep_splitOnChar (sep : Char) : ∀ l : JSStr, joinSep sep (splitOnChar sep l) = l := by
  intro l
  induction l with
  | nil => rfl
  | cons c cs ih =>
    unfold splitOnChar
    by_cases hc : c = sep
    · rw [if_pos hc]
      obtain ⟨g, gs, hg⟩ : ∃ g gs, splitOnChar sep cs = g :: gs := by
        cases hsp : splitOnChar sep cs with
        | nil => exact absurd hsp (splitOnChar_ne_nil sep cs)
        | cons g gs => exact ⟨g, gs, rfl⟩
      rw [hg]
      rw [hg] at ih
      show [] ++ sep :: joinSep sep (g :: gs) = c :: cs
      rw [List.nil_append, ih, hc]
    · rw [if_neg hc]
      obtain ⟨g, gs, hg⟩ : ∃ g gs, splitOnChar sep cs = g :: gs := by
        cases hsp : splitOnChar sep cs with
        | nil => exact absurd hsp (splitOnChar_ne_nil sep cs)
        | cons g gs => exact ⟨g, gs, rfl⟩
      rw [hg]
      rw [hg] at ih
      show joinSep sep ((c :: g) :: gs) = c :: cs
      rw [joinSep_cons_head, ih]

/-- Auxiliary: a string matching the tag pattern decomposes into its four
nonempty all-digit segments, and `tagKey` reads off their values. -/
theorem pattern_decomp {t : JSStr} (h : matchesTagPattern t = true) :
    ∃ a b c d : JSStr,
      t = a ++ '.' :: (b ++ '.' :: (c ++ '.' :: d)) ∧
      (a ≠ [] ∧ ∀ ch ∈ a, isDigitChar ch = true) ∧
      (b ≠ [] ∧ ∀ ch ∈ b, isDigitChar ch = true) ∧
      (c ≠ [] ∧ ∀ ch ∈ c, isDigitChar ch = true) ∧
      (d ≠ [] ∧ ∀ ch ∈ d, isDigitChar ch = true) ∧
      tagKey t = (parseDigits a, parseDigits b, parseDigits c, parseDigits d) := by
  unfold matchesTagPattern at h
  rw [Bool.and_eq_true] at h
  obtain ⟨hlen, hall⟩ := h
  rw [beq_iff_eq] at hlen
  rw [List.all_eq_true] at hall
  obtain ⟨a, b, c, d, hsp⟩ : ∃ a b c d, splitOnChar '.' t = [a, b, c, d] := by
    rcases hp : splitOnChar '.' t with _ | ⟨a, _ | ⟨b, _ | ⟨c, _ | ⟨d, _ | ⟨e, rest⟩⟩⟩⟩⟩ <;>
      rw [hp] at hlen <;> simp at hlen
    exact ⟨a, b, c, d, rfl⟩
  have hseg : ∀ p ∈ splitOnChar '.' t, p ≠ [] ∧ ∀ ch ∈ p, isDigitChar ch = true := by
    intro p hp
    have hq := hall p hp
    rw [Bool.and_eq_true] at hq
    constructor
    · intro he
      rw [he] at hq
      exact absurd hq.1 (by decide)
    · exact fun ch hch => List.all_eq_true.mp hq.2 ch hch
  have hja := joinSep_splitOnChar '.' t
  rw [hsp] at hja
  have ht : t = a ++ '.' :: (b ++ '.' :: (c ++ '.' :: d)) := by
    rw [← hja]
    rfl
  have hkey : tagKey t = (parseDigits a, parseDigits b, parseDigits c, parseDigits d) := by
    unfold tagKey
    rw [hsp]
    rfl
  exact ⟨a, b, c, d, ht,
    hseg a (by rw [hsp]; simp), hseg b (by rw [hsp]; simp),
    hseg c (by rw [hsp]; simp), hseg d (by rw [hsp]; simp), hkey⟩

/-- Auxiliary: the token stream of a well-formed tag string. -/
theorem tokenize_tag {a b c d : JSStr}
    (ha : a ≠ [] ∧ ∀ ch ∈ a, isDigitChar ch = true)
    (hb : b ≠ [] ∧ ∀ ch ∈ b, isDigitChar ch = true)
    (hc : c ≠ [] ∧ ∀ ch ∈ c, isDigitChar ch = true)
    (hd : d ≠ [] ∧ ∀ ch ∈ d, isDigitChar ch = true) :
    tokenize (a ++ '.' :: (b ++ '.' :: (c ++ '.' :: d))) =
      [.num a, .chr '.', .num b, .chr '.', .num c, .chr '.', .num d] := by
  have hdot : isDigitChar '.' = false := by decide
  rw [tokenize_digits_append ha.1 ha.2 (fun e he => by cases he; exact hdot)]
  rw [tokenize_nonDigit_cons hdot]
  rw [tokenize_digits_append hb.1 hb.2 (fun e he => by cases he; exact hdot)]
  rw [tokenize_nonDigit_cons hdot]
  rw [tokenize_digits_append hc.1 hc.2 (fun e he => by cases he; exact hdot)]
  rw [tokenize_nonDigit_cons hdot]
  rw [tokenize_all_digits hd.1 hd.2]

/-- Auxiliary: numeric tokens compare by their parsed values. -/
theorem prodCompare_num_keys (m n : Nat) :
    prodCompare (48, m) (48, n) = compare m n := by
  unfold prodCompare
  simp [Nat.compare_def_lt]

/-- Auxiliary: the collation of two well-formed tag token streams is the
component-wise integer comparison of the parsed quadruples. -/
theorem lexTok_tagStream (a1 a2 a3 a4 b1 b2 b3 b4 : JSStr) :
    lexTokCompare [.num a1, .chr '.', .num a2, .chr '.', .num a3, .chr '.', .num a4]
        [.num b1, .chr '.', .num b2, .chr '.', .num b3, .chr '.', .num b4] =
      quadCompare (parseDigits a1, parseDigits a2, parseDigits a3, parseDigits a4)
        (parseDigits b1, parseDigits b2, parseDigits b3, parseDigits b4) := by
  simp only [lexTokCompare, tokKey, prodCompare_num_keys, prodCompare_self, quadCompare]
  cases compare (parseDigits a1) (parseDigits b1) <;>
    cases compare (parseDigits a2) (parseDigits b2) <;>
      cases compare (parseDigits a3) (parseDigits b3) <;>
        cases compare (parseDigits a4) (parseDigits b4) <;> rfl

/-- Auxiliary: on strings matching the tag pattern, the locale-aware numeric
string comparison of the source coincides with component-wise integer
comparison of the version quadruples. -/
theorem locale_eq_quadCompare {a b : JSStr} (ha : matchesTagPattern a = true)
    (hb : matchesTagPattern b = true) :
    localeCompareNumeric a b = quadCompare (tagKey a) (tagKey b) := by
  obtain ⟨a1, a2, a3, a4, hta, hA1, hA2, hA3, hA4, hka⟩ := pattern_decomp ha
  obtain ⟨b1, b2, b3, b4, htb, hB1, hB2, hB3, hB4, hkb⟩ := pattern_decomp hb
  unfold localeCompareNumeric
  rw [hta, htb, tokenize_tag hA1 hA2 hA3 hA4, tokenize_tag hB1 hB2 hB3 hB4,
    lexTok_tagStream, ← hta, ← htb, hka, hkb]

/-- Auxiliary: the quadruple comparison is `eq` exactly on equal quadruples. -/
theorem quadCompare_eq_iff (p q : Nat × Nat × Nat × Nat) :
    quadCompare p q = .eq ↔ p = q := by
  obtain ⟨p1, p2, p3, p4⟩ := p
  obtain ⟨q1, q2, q3, q4⟩ := q
  simp only [quadCompare, Nat.compare_def_lt, Prod.mk.injEq]
  split_ifs <;> simp <;> omega

/-- C4 (amended): for every repository whose pattern-matching tags have
pairwise distinct numeric quadruples (in particular whenever no component has
a leading zero), the tag listing returns the tags in strictly descending
numeric order, comparing `(X, Y, Z, R)` component-wise as integers. -/
theorem c4_tag_listing_strictly_descending (st : GitState)
    (hdistinct : ((tagNames st).filter matchesTagPattern).Pairwise
      (fun a b => tagKey a ≠ tagKey b)) :
    (getAllTags st).Pairwise (fun a b => quadCompare (tagKey b) (tagKey a) = .lt) := by
  haveI : IsTrans JSStr jsDescRel := ⟨jsDescRel_trans⟩
  haveI : IsTotal JSStr jsDescRel := ⟨jsDescRel_total⟩
  have hsorted : (getAllTags st).Pairwise jsDescRel :=
    List.sorted_insertionSort jsDescRel ((tagNames st).filter matchesTagPattern)
  have hperm : (getAllTags st).Perm ((tagNames st).filter matchesTagPattern) :=
    List.perm_insertionSort jsDescRel _
  have hne : (getAllTags st).Pairwise (fun a b => tagKey a ≠ tagKey b) :=
    (hperm.pairwise_iff (fun hxy he => hxy he.symm)).mpr hdistinct
  have hmem : ∀ x ∈ getAllTags st, matchesTagPattern x = true := by
    intro x hx
    exact (List.mem_filter.mp (hperm.subset hx)).2
  refine List.Pairwise.imp_of_mem ?_ (hsorted.and hne)
  intro x y hxm hym hxy
  have hlcn : localeCompareNumeric y x ≠ .gt := (jsDescRel_iff x y).mp hxy.1
  rw [locale_eq_quadCompare (hmem y hym) (hmem x hxm)] at hlcn
  have hneq : quadCompare (tagKey y) (tagKey x) ≠ .eq := fun he =>
    hxy.2 (((quadCompare_eq_iff _ _).mp he).symm)
  rcases (ordering_ne_gt_iff _).mp hlcn with h | h
  · exact h
  · exact absurd h hneq

/-- C4 (witness): with tags `4.1.2.9` and `4.1.2.10`, the listing returns
`4.1.2.10` first — numeric, not lexicographic, order. -/
theorem c4_tag_listing_witness :
    ((tagNames stateRich).filter matchesTagPattern).Pairwise
        (fun a b => tagKey a ≠ tagKey b) ∧
      getAllTags stateRich = ["4.1.2.10".data, "4.1.2.9".data] ∧
      (getAllTags stateRich).Pairwise
        (fun a b => quadCompare (tagKey b) (tagKey a) = .lt) :=
  ⟨by decide, by decide, c4_tag_listing_strictly_descending stateRich (by decide)⟩

/-- C4 (counterexample): the distinct tags `4.01.2.3` and `4.1.2.3` both match
the 4-integer pattern but share the numeric quadruple `(4, 1, 2, 3)`, so the
listing of this tag set is not strictly descending by quadruple. -/
theorem c4_strict_order_counterexample :
    matchesTagPattern "4.01.2.3".data = true ∧
      matchesTagPattern "4.1.2.3".data = true ∧
      ¬ ("4.01.2.3".data = "4.1.2.3".data) ∧
      getAllTags stateDup = ["4.01.2.3".data, "4.1.2.3".data] ∧
      ¬ (getAllTags stateDup).Pairwise
        (fun a b => quadCompare (tagKey b) (tagKey a) = .lt) := by
  refine ⟨by decide, by decide, by decide, by decide, fun hp => ?_⟩
  rw [show getAllTags stateDup = ["4.01.2.3".data, "4.1.2.3".data] from by decide] at hp
  have hrel := List.rel_of_pairwise_cons hp (List.mem_singleton.mpr rfl)
  exact absurd hrel (by decide)
